import Mathlib

/-!
Shallow embedding of the thermal-simulation core of the `idle_game`
repository (file `test1.py`): the per-tick heat update
`update_heat_array(H, G, C_arr, M, dt)`, the occupancy operations
`Box.place` / `Box.remove`, and the per-cell lifecycle decision taken in the
INCOME event handler.  Python floats are modelled as exact rationals (`ℚ`),
2-D numpy arrays as functions `ℤ × ℤ → ℚ` over the in-bounds domain
`[0, rows) × [0, cols)`, and `scipy.ndimage.label` (8-connected component
labelling of the `conductivity > 0` mask) by its contract: two cells carry
the same non-zero label iff both are conductive and joined by an
8-connected path of conductive cells.
-/

namespace IdleGame

/-- Source config: `diffusion_rate_factor_setting = 1`. -/
def diffusion_rate_factor_setting : ℚ := 1

/-- Source config: `game_speed_actions_per_second = 50`. -/
def game_speed_actions_per_second : ℚ := 50

/-- Source: `neighbors_coords = [(0,1),(1,0),(0,-1),(-1,0)]` (right, down, left, up). -/
def neighbors_coords : List (ℤ × ℤ) := [(0, 1), (1, 0), (0, -1), (-1, 0)]

/-- The 4 transfer directions as a finite set (for the delta-buffer sum). -/
def dirsF : Finset (ℤ × ℤ) := {(0, 1), (1, 0), (0, -1), (-1, 0)}

/-- In-bounds predicate: the Python arrays have shape `rows × cols`;
the source's neighbor bounds check is `0 <= nr < rows and 0 <= nc < cols`. -/
def inB (rows cols : ℕ) (p : ℤ × ℤ) : Prop :=
  0 ≤ p.1 ∧ p.1 < (rows : ℤ) ∧ 0 ≤ p.2 ∧ p.2 < (cols : ℤ)

instance inB.decidable (rows cols : ℕ) (p : ℤ × ℤ) : Decidable (inB rows cols p) := by
  unfold inB; infer_instance

/-- The 8 neighbor offsets used by the 3×3 `structure` matrix that
`scipy.ndimage.label` is called with (8-connected componentization). -/
def offsets8 : List (ℤ × ℤ) :=
  [(-1, -1), (-1, 0), (-1, 1), (0, -1), (0, 1), (1, -1), (1, 0), (1, 1)]

/-- All 8-neighbors of a cell. -/
def neighbors8 (p : ℤ × ℤ) : List (ℤ × ℤ) :=
  offsets8.map (fun d => (p.1 + d.1, p.2 + d.2))

/-- Foreground mask of the labelling call: `connectivity = (C_arr > 0)`,
restricted to the array's domain. -/
def condB (rows cols : ℕ) (C_arr : ℤ × ℤ → ℚ) (p : ℤ × ℤ) : Bool :=
  decide (inB rows cols p ∧ 0 < C_arr p)

/-- Fuel-bounded reachability through mask cells along 8-adjacency
(paths of at most `fuel` edges whose intermediate cells satisfy `cond`). -/
def connB (cond : ℤ × ℤ → Bool) : ℕ → ℤ × ℤ → ℤ × ℤ → Bool
  | 0, p, q => p == q
  | n + 1, p, q =>
      connB cond n p q || (neighbors8 q).any (fun w => cond w && connB cond n p w)

/-- `sameComp p q` models the gate
`labeled[r, c] != 0 and labeled[r, c] == labeled[nr, nc]` of the source:
by `scipy.ndimage.label`'s contract two cells carry the same non-zero label
iff both are in the foreground mask and 8-connected through it.  Fuel
`rows * cols` covers every simple path in the grid. -/
def sameComp (rows cols : ℕ) (C_arr : ℤ × ℤ → ℚ) (p q : ℤ × ℤ) : Bool :=
  condB rows cols C_arr p && condB rows cols C_arr q &&
    connB (condB rows cols C_arr) (rows * cols) p q

/-- The grid cells as a finite set. -/
def cellsF (rows cols : ℕ) : Finset (ℤ × ℤ) :=
  Finset.Ico 0 (rows : ℤ) ×ˢ Finset.Ico 0 (cols : ℤ)

/-- The grid cells in row-major order: the iteration order of
`np.argwhere(cooling_mask)` in the cooling section. -/
def cellsRM (rows cols : ℕ) : List (ℤ × ℤ) :=
  (List.range rows).flatMap
    (fun (r : ℕ) => (List.range cols).map (fun (c : ℕ) => (Int.ofNat r, Int.ofNat c)))

/-- Python's two-argument `max`, written so that the kernel can reduce it on
concrete rationals (the library's lattice `max` gets stuck in instances). -/
def qmax (a b : ℚ) : ℚ := if a ≤ b then b else a

/-- Elementwise `min`, kernel-reducible twin of the library's `min`. -/
def qmin (a b : ℚ) : ℚ := if a ≤ b then a else b

/-- Phase 1 of `update_heat_array`: `H += G * dt`. -/
def genPhase (G : ℤ × ℤ → ℚ) (dt : ℚ) (H : ℤ × ℤ → ℚ) : ℤ × ℤ → ℚ :=
  fun p => H p + G p * dt

/-- `T = np.divide(H, M, out=zeros, where=M > 0)`: temperature, 0 where `M ≤ 0`. -/
def tempOf (M H1 : ℤ × ℤ → ℚ) (p : ℤ × ℤ) : ℚ :=
  if 0 < M p then H1 p / M p else 0

/-- One directed conduction term of the inner loop: the heat flow pushed from
loop cell `p` towards neighbor `p + d` (0 when any of the source's guards
fails: loop domain, `M[r,c] <= 0 or C_arr[r,c] <= 0` skip, neighbor bounds
check, `M[nr,nc] > 0 and C_arr[nr,nc] > 0`, and the component gate). -/
def flowTerm (rows cols : ℕ) (C_arr M : ℤ × ℤ → ℚ) (dt : ℚ) (H1 : ℤ × ℤ → ℚ)
    (p d : ℤ × ℤ) : ℚ :=
  if inB rows cols p ∧ 0 < M p ∧ 0 < C_arr p ∧
      inB rows cols (p.1 + d.1, p.2 + d.2) ∧ 0 < M (p.1 + d.1, p.2 + d.2) ∧
      0 < C_arr (p.1 + d.1, p.2 + d.2) ∧
      sameComp rows cols C_arr p (p.1 + d.1, p.2 + d.2) = true then
    ((C_arr p + C_arr (p.1 + d.1, p.2 + d.2)) / 2) *
      (tempOf M H1 p - tempOf M H1 (p.1 + d.1, p.2 + d.2)) * dt *
      diffusion_rate_factor_setting
  else 0

/-- The delta buffer `dH` at cell `z`: every loop iteration `(p, d)` does
`dH[p] -= heat_flow; dH[p + d] += heat_flow`, so the accumulated value at
`z` is the sum of the signed contributions of all iterations. -/
def dHOf (rows cols : ℕ) (C_arr M : ℤ × ℤ → ℚ) (dt : ℚ) (H1 : ℤ × ℤ → ℚ)
    (z : ℤ × ℤ) : ℚ :=
  ∑ pd ∈ cellsF rows cols ×ˢ dirsF,
    flowTerm rows cols C_arr M dt H1 pd.1 pd.2 *
      ((if (pd.1.1 + pd.2.1, pd.1.2 + pd.2.2) = z then 1 else 0) -
        (if pd.1 = z then 1 else 0))

/-- Phases 2–3 of `update_heat_array`: compute all flows against the frozen
start-of-step temperatures and apply them simultaneously: `H += dH`. -/
def diffPhase (rows cols : ℕ) (C_arr M : ℤ × ℤ → ℚ) (dt : ℚ) (H1 : ℤ × ℤ → ℚ) :
    ℤ × ℤ → ℚ :=
  fun p => H1 p + dHOf rows cols C_arr M dt H1 p

/-- The coolable 4-neighbors of a sink cell: in bounds with `M > 0`,
collected in the source's direction order. -/
def coolNbrs (rows cols : ℕ) (M : ℤ × ℤ → ℚ) (s : ℤ × ℤ) : List (ℤ × ℤ) :=
  (neighbors_coords.map (fun d => (s.1 + d.1, s.2 + d.2))).filter
    (fun n => decide (inB rows cols n ∧ 0 < M n))

/-- Cooling applied by one sink cell `s`:
`cooling_power = -G[i,j] * dt`; each coolable neighbor `n` loses
`cooling_power * H[n] / total` (proportional share), floored at 0.
Inside a single sink's loop every neighbor is updated exactly once from its
pre-loop value, so the sequential Python loop equals this simultaneous map. -/
def applyCoolAt (rows cols : ℕ) (G M : ℤ × ℤ → ℚ) (dt : ℚ) (H2 : ℤ × ℤ → ℚ)
    (s : ℤ × ℤ) : ℤ × ℤ → ℚ :=
  let nbrs := coolNbrs rows cols M s
  let total : ℚ := (nbrs.map H2).sum
  if nbrs.isEmpty then H2
  else if 0 < total then
    fun p => if p ∈ nbrs then qmax 0 (H2 p - (-G s * dt) * (H2 p / total)) else H2 p
  else H2

/-- The sink cells `np.argwhere((G < 0) & (M == 0))`, in row-major order. -/
def coolCells (rows cols : ℕ) (G M : ℤ × ℤ → ℚ) : List (ℤ × ℤ) :=
  (cellsRM rows cols).filter (fun p => decide (G p < 0 ∧ M p = 0))

/-- Phase 4 of `update_heat_array`: the cooling cells are processed
sequentially in row-major order. -/
def coolPhase (rows cols : ℕ) (G M : ℤ × ℤ → ℚ) (dt : ℚ) (H2 : ℤ × ℤ → ℚ) :
    ℤ × ℤ → ℚ :=
  (coolCells rows cols G M).foldl (applyCoolAt rows cols G M dt) H2

/-- Phase 5: `np.clip(H, 0, M)`, elementwise `min(max(h, 0), m)`. -/
def clampPhase (M H3 : ℤ × ℤ → ℚ) : ℤ × ℤ → ℚ :=
  fun p => qmin (qmax (H3 p) 0) (M p)

/-- The heat state just before the final clip. -/
def preClamp (rows cols : ℕ) (H G C_arr M : ℤ × ℤ → ℚ) (dt : ℚ) : ℤ × ℤ → ℚ :=
  coolPhase rows cols G M dt (diffPhase rows cols C_arr M dt (genPhase G dt H))

/-- `update_heat_array(H, G, C_arr, M, dt)` of `test1.py`. -/
def update_heat_array (rows cols : ℕ) (H G C_arr M : ℤ × ℤ → ℚ) (dt : ℚ) :
    ℤ × ℤ → ℚ :=
  clampPhase M (preClamp rows cols H G C_arr M dt)

/-- `n` consecutive calls of `update_heat_array` with the same parameters. -/
def stepN (rows cols : ℕ) (G C_arr M : ℤ × ℤ → ℚ) (dt : ℚ) :
    ℕ → (ℤ × ℤ → ℚ) → ℤ × ℤ → ℚ
  | 0, H => H
  | n + 1, H => update_heat_array rows cols (stepN rows cols G C_arr M dt n H) G C_arr M dt

/-! ### The identical step with the component-equality check removed
(comparison definition for the refinement claim about the gate). -/

/-- `flowTerm` with the conjunct modelling
`labeled[r, c] != 0 and labeled[r, c] == labeled[nr, nc]` deleted and every
other guard kept verbatim. -/
def flowTermNoGate (rows cols : ℕ) (C_arr M : ℤ × ℤ → ℚ) (dt : ℚ)
    (H1 : ℤ × ℤ → ℚ) (p d : ℤ × ℤ) : ℚ :=
  if inB rows cols p ∧ 0 < M p ∧ 0 < C_arr p ∧
      inB rows cols (p.1 + d.1, p.2 + d.2) ∧ 0 < M (p.1 + d.1, p.2 + d.2) ∧
      0 < C_arr (p.1 + d.1, p.2 + d.2) then
    ((C_arr p + C_arr (p.1 + d.1, p.2 + d.2)) / 2) *
      (tempOf M H1 p - tempOf M H1 (p.1 + d.1, p.2 + d.2)) * dt *
      diffusion_rate_factor_setting
  else 0

/-- Delta buffer of the ungated step. -/
def dHOfNoGate (rows cols : ℕ) (C_arr M : ℤ × ℤ → ℚ) (dt : ℚ) (H1 : ℤ × ℤ → ℚ)
    (z : ℤ × ℤ) : ℚ :=
  ∑ pd ∈ cellsF rows cols ×ˢ dirsF,
    flowTermNoGate rows cols C_arr M dt H1 pd.1 pd.2 *
      ((if (pd.1.1 + pd.2.1, pd.1.2 + pd.2.2) = z then 1 else 0) -
        (if pd.1 = z then 1 else 0))

/-- The diffusion phase without the component gate. -/
def diffPhaseNoGate (rows cols : ℕ) (C_arr M : ℤ × ℤ → ℚ) (dt : ℚ)
    (H1 : ℤ × ℤ → ℚ) : ℤ × ℤ → ℚ :=
  fun p => H1 p + dHOfNoGate rows cols C_arr M dt H1 p

/-- `update_heat_array` with the component-equality check removed and all
other phases identical. -/
def update_heat_array_nogate (rows cols : ℕ) (H G C_arr M : ℤ × ℤ → ℚ)
    (dt : ℚ) : ℤ × ℤ → ℚ :=
  clampPhase M
    (coolPhase rows cols G M dt (diffPhaseNoGate rows cols C_arr M dt (genPhase G dt H)))

/-! ### Proposition-level 8-connectivity, for stating isolation. -/

/-- Two distinct cells within Chebyshev distance 1 (8-adjacency). -/
def Adj8 (a b : ℤ × ℤ) : Prop :=
  a ≠ b ∧ -1 ≤ a.1 - b.1 ∧ a.1 - b.1 ≤ 1 ∧ -1 ≤ a.2 - b.2 ∧ a.2 - b.2 ≤ 1

/-- A cell of the grid with positive conductivity (the labelling foreground). -/
def CondCell (rows cols : ℕ) (C_arr : ℤ × ℤ → ℚ) (p : ℤ × ℤ) : Prop :=
  inB rows cols p ∧ 0 < C_arr p

/-- One hop between conductive cells. -/
def Edge (rows cols : ℕ) (C_arr : ℤ × ℤ → ℚ) (a b : ℤ × ℤ) : Prop :=
  CondCell rows cols C_arr a ∧ CondCell rows cols C_arr b ∧ Adj8 a b

/-- `Conn p q`: a path of conductive cells under 8-connectivity joins `p`
to `q` (the "same connected component" relation of the spec). -/
def Conn (rows cols : ℕ) (C_arr : ℤ × ℤ → ℚ) : ℤ × ℤ → ℤ × ℤ → Prop :=
  Relation.ReflTransGen (Edge rows cols C_arr)

/-! ### Occupancy and lifecycle (`Content`, `Box.place`, `Box.remove`, INCOME handler) -/

/-- The `Content` class of `test1.py` (the `image` surface is rendering-only
and omitted; every other constructor-set field is kept).  `creation` is a
`pygame.time.get_ticks()` millisecond stamp. -/
structure Content where
  name : String
  cost : ℤ
  timeout : ℤ
  creation : ℚ
  income : ℚ
  category : String
  heat : ℚ
  heat_generation : ℚ
  max_heat : ℚ
  conductivity : ℚ
  permanent : Bool

/-- `Content.__init__`: `heat = 0.0`, `permanent = (timeout == 0)`. -/
def mkContent (name : String) (cost timeout : ℤ) (now income : ℚ)
    (category : String) (heat_generation max_heat conductivity : ℚ) : Content :=
  { name := name, cost := cost, timeout := timeout, creation := now,
    income := income, category := category, heat := 0,
    heat_generation := heat_generation, max_heat := max_heat,
    conductivity := conductivity, permanent := timeout == 0 }

/-- `Content.clone`: rebuilds through `__init__` with
`income = income / game_speed_actions_per_second` and a fresh creation stamp. -/
def Content.clone (c : Content) (now : ℚ) : Content :=
  mkContent c.name c.cost c.timeout now (c.income / game_speed_actions_per_second)
    c.category c.heat_generation c.max_heat c.conductivity

/-- The occupancy grid together with the four global heat arrays that
`Box.place` / `Box.remove` mutate. -/
@[ext]
structure SimState where
  occupied : ℤ × ℤ → Bool
  content : ℤ × ℤ → Option Content
  H : ℤ × ℤ → ℚ
  G : ℤ × ℤ → ℚ
  M : ℤ × ℤ → ℚ
  C_arr : ℤ × ℤ → ℚ

/-- `Box.place(content)` at grid coordinate `p`: on an unoccupied cell it
clones the catalog entry, marks the cell occupied and writes
`H = 0, G = heat_generation, M = max_heat, C_arr = conductivity` at `p`,
returning `True`; on an occupied cell it returns `False` and touches
nothing. -/
def boxPlace (s : SimState) (p : ℤ × ℤ) (content : Content) (now : ℚ) :
    SimState × Bool :=
  if s.occupied p = false then
    let cl := content.clone now
    ({ occupied := fun q => if q = p then true else s.occupied q,
       content := fun q => if q = p then some cl else s.content q,
       H := fun q => if q = p then 0 else s.H q,
       G := fun q => if q = p then cl.heat_generation else s.G q,
       M := fun q => if q = p then cl.max_heat else s.M q,
       C_arr := fun q => if q = p then cl.conductivity else s.C_arr q }, true)
  else (s, false)

/-- `Box.remove()` at grid coordinate `p`: when the cell holds a content, the
four arrays are zeroed at `p`; in every case `occupied` becomes `False` and
`content` becomes `None`.  The Python method body ends without a `return`
statement, so its value is `None` on every path. -/
def boxRemove (s : SimState) (p : ℤ × ℤ) : SimState × Option Content :=
  let s1 : SimState :=
    if (s.content p).isSome = true then
      { s with H := fun q => if q = p then 0 else s.H q,
               G := fun q => if q = p then 0 else s.G q,
               M := fun q => if q = p then 0 else s.M q,
               C_arr := fun q => if q = p then 0 else s.C_arr q }
    else s
  ({ s1 with occupied := fun q => if q = p then false else s1.occupied q,
             content := fun q => if q = p then none else s1.content q }, none)

/-- Outcome of the per-cell lifecycle checks of the INCOME event handler. -/
inductive TickOutcome where
  | removedExpired : TickOutcome
  | removedOverheat : TickOutcome
  | kept : TickOutcome
deriving DecidableEq

/-- The per-occupied-cell decision of the INCOME handler, after
`b.content.heat = H[r, c]` has been mirrored (`hVal` is that mirrored heat):
if the object is not permanent and `(now - creation) / 1000 >= timeout`
it is removed (and the overheat check is skipped via `continue`);
otherwise it is removed iff `heat >= max_heat and heat_generation > 0`. -/
def incomeTickCell (c : Content) (hVal now : ℚ) : TickOutcome :=
  if c.permanent = false ∧ (now - c.creation) / 1000 ≥ (c.timeout : ℚ) then
    TickOutcome.removedExpired
  else if hVal ≥ c.max_heat ∧ c.heat_generation > 0 then
    TickOutcome.removedOverheat
  else TickOutcome.kept

/-! ### Concrete states used in the scenario evaluations -/

/-- 2×1 scenario heat: cellA `(0,0)` holds 10, cellB `(1,0)` holds 0. -/
def exH_pair : ℤ × ℤ → ℚ := fun p => if p = (0, 0) then 10 else 0

/-- Zero generation array. -/
def exG0 : ℤ × ℤ → ℚ := fun _ => 0

/-- Conductivity 1 everywhere. -/
def exC1 : ℤ × ℤ → ℚ := fun _ => 1

/-- Capacity 10 everywhere. -/
def exM10 : ℤ × ℤ → ℚ := fun _ => 10

/-- 2×1 heat state `(8, 2)` used for the negative-`dt` evaluation. -/
def exH_rev : ℤ × ℤ → ℚ :=
  fun p => if p = (0, 0) then 8 else if p = (1, 0) then 2 else 0

/-- 1×2 sink scenario: the heated neighbor `(0,1)` holds 5. -/
def exH_sink : ℤ × ℤ → ℚ := fun p => if p = (0, 1) then 5 else 0

/-- 1×2 sink scenario: generation −2 at the sink `(0,0)`. -/
def exG_sink : ℤ × ℤ → ℚ := fun p => if p = (0, 0) then -2 else 0

/-- Conductivity 0 everywhere. -/
def exC0 : ℤ × ℤ → ℚ := fun _ => 0

/-- 1×2 sink scenario: capacity 10 at the neighbor `(0,1)`, 0 at the sink. -/
def exM_sink : ℤ × ℤ → ℚ := fun p => if p = (0, 1) then 10 else 0

/-- 1×2 overshoot scenario heat `(1, 1/2)`. -/
def exH_over : ℤ × ℤ → ℚ :=
  fun p => if p = (0, 0) then 1 else if p = (0, 1) then 1/2 else 0

/-- Conductivity 10 everywhere (large against capacity 1: one step overshoots). -/
def exC10 : ℤ × ℤ → ℚ := fun _ => 10

/-- Capacity 1 everywhere. -/
def exM1 : ℤ × ℤ → ℚ := fun _ => 1

/-- 1×3 isolation scenario: conductive at `(0,0)` and `(0,2)`, insulating
sink column in between. -/
def exC_iso : ℤ × ℤ → ℚ := fun p => if p = (0, 1) then 0 else 1

/-- 1×3 isolation scenario capacities: 10 at the two ends, 0 at the sink. -/
def exM_iso : ℤ × ℤ → ℚ := fun p => if p = (0, 1) then 0 else 10

/-- 1×3 isolation scenario generation: −2 at the middle sink. -/
def exG_iso : ℤ × ℤ → ℚ := fun p => if p = (0, 1) then -2 else 0

/-- 1×3 isolation scenario heat, first run: 5 at both ends. -/
def exH_isoA : ℤ × ℤ → ℚ :=
  fun p => if p = (0, 0) then 5 else if p = (0, 2) then 5 else 0

/-- Second run: differs from the first only at `(0,0)`. -/
def exH_isoB : ℤ × ℤ → ℚ := fun p => if p = (0, 0) then 10 else exH_isoA p

/-- A non-permanent catalog entry (timeout 15 s) used to exercise the
lifecycle decision. -/
def exContent : Content := mkContent "reactor" 10 15 0 (1/2) "shop_logo" 1 5 0

/-- A permanent catalog entry (timeout 0). -/
def exContentPerm : Content := mkContent "vent" 20 0 0 0 "systems_logo" (-1) 5 1

/-- An occupancy/array state whose cell `(0,0)` is occupied by `exContent`
with non-trivial array values there. -/
def exState : SimState :=
  { occupied := fun p => decide (p = (0, 0)),
    content := fun p => if p = (0, 0) then some exContent else none,
    H := fun p => if p = (0, 0) then 3 else 0,
    G := fun p => if p = (0, 0) then 1 else 0,
    M := fun p => if p = (0, 0) then 5 else 0,
    C_arr := fun p => if p = (0, 0) then 2 else 0 }

/-- The empty state: nothing occupied, all arrays zero. -/
def exStateEmpty : SimState :=
  { occupied := fun _ => false, content := fun _ => none,
    H := fun _ => 0, G := fun _ => 0, M := fun _ => 0, C_arr := fun _ => 0 }

/-! ### Helper lemmas -/

theorem qmax_eq_max (a b : ℚ) : qmax a b = max a b := by
  unfold qmax; split <;> rename_i h
  · exact (max_eq_right h).symm
  · exact (max_eq_left (le_of_not_le h)).symm

theorem qmin_eq_min (a b : ℚ) : qmin a b = min a b := by
  unfold qmin; split <;> rename_i h
  · exact (min_eq_left h).symm
  · exact (min_eq_right (le_of_not_le h)).symm

theorem mem_cellsF {rows cols : ℕ} {p : ℤ × ℤ} :
    p ∈ cellsF rows cols ↔ inB rows cols p := by
  simp [cellsF, inB, Finset.mem_product, Finset.mem_Ico, and_assoc]

theorem mem_cellsRM {rows cols : ℕ} {p : ℤ × ℤ} :
    p ∈ cellsRM rows cols ↔ inB rows cols p := by
  constructor
  · intro h
    rw [cellsRM, List.mem_flatMap] at h
    obtain ⟨r, hr, hp⟩ := h
    rw [List.mem_map] at hp
    obtain ⟨c, hc, rfl⟩ := hp
    rw [List.mem_range] at hr hc
    refine ⟨Int.ofNat_nonneg r, ?_, Int.ofNat_nonneg c, ?_⟩
    · show (r : ℤ) < (rows : ℤ); exact_mod_cast hr
    · show (c : ℤ) < (cols : ℤ); exact_mod_cast hc
  · intro h
    obtain ⟨h1, h2, h3, h4⟩ := h
    rw [cellsRM, List.mem_flatMap]
    refine ⟨p.1.toNat, by rw [List.mem_range]; omega, ?_⟩
    rw [List.mem_map]
    refine ⟨p.2.toNat, by rw [List.mem_range]; omega, ?_⟩
    obtain ⟨a, b⟩ := p
    rw [Prod.mk.injEq]
    constructor <;> simp <;> omega

theorem connB_refl (cond : ℤ × ℤ → Bool) (n : ℕ) (p : ℤ × ℤ) :
    connB cond n p p = true := by
  induction n with
  | zero => simp [connB]
  | succ n ih => simp [connB, ih]

theorem connB_succ_of_connB (cond : ℤ × ℤ → Bool) (n : ℕ) (p q : ℤ × ℤ)
    (h : connB cond n p q = true) : connB cond (n + 1) p q = true := by
  simp [connB, h]

theorem adj8_shift (x y a b : ℤ) (h1 : -1 ≤ a) (h2 : a ≤ 1) (h3 : -1 ≤ b)
    (h4 : b ≤ 1) (h5 : ¬(a = 0 ∧ b = 0)) : Adj8 (x + a, y + b) (x, y) := by
  refine ⟨fun h => ?_, ?_, ?_, ?_, ?_⟩
  · rw [Prod.mk.injEq] at h; omega
  · show -1 ≤ x + a - x; omega
  · show x + a - x ≤ 1; omega
  · show -1 ≤ y + b - y; omega
  · show y + b - y ≤ 1; omega

theorem adj8_of_mem_offsets8 (q : ℤ × ℤ) (d : ℤ × ℤ) (hd : d ∈ offsets8) :
    Adj8 (q.1 + d.1, q.2 + d.2) q := by
  obtain ⟨x, y⟩ := q
  simp only [offsets8, List.mem_cons, List.not_mem_nil, or_false] at hd
  rcases hd with rfl | rfl | rfl | rfl | rfl | rfl | rfl | rfl <;>
    exact adj8_shift x y _ _ (by norm_num) (by norm_num) (by norm_num) (by norm_num)
      (by norm_num)

theorem condB_iff {rows cols : ℕ} {C_arr : ℤ × ℤ → ℚ} {p : ℤ × ℤ} :
    condB rows cols C_arr p = true ↔ CondCell rows cols C_arr p := by
  simp [condB, CondCell]

theorem connB_sound {rows cols : ℕ} {C_arr : ℤ × ℤ → ℚ} (n : ℕ) (p q : ℤ × ℤ)
    (hp : CondCell rows cols C_arr p) (hq : CondCell rows cols C_arr q)
    (h : connB (condB rows cols C_arr) n p q = true) :
    Conn rows cols C_arr p q := by
  induction n generalizing q with
  | zero =>
      simp only [connB, beq_iff_eq] at h
      exact h ▸ Relation.ReflTransGen.refl
  | succ n ih =>
      simp only [connB, Bool.or_eq_true, List.any_eq_true, Bool.and_eq_true] at h
      rcases h with h | ⟨w, hw, hcw, hcon⟩
      · exact ih q hq h
      · have hwc : CondCell rows cols C_arr w := condB_iff.mp hcw
        have hpw : Conn rows cols C_arr p w := ih w hwc hcon
        refine hpw.tail ⟨hwc, hq, ?_⟩
        simp only [neighbors8, List.mem_map] at hw
        rcases hw with ⟨d, hd, rfl⟩
        exact adj8_of_mem_offsets8 q d hd

theorem sameComp_conn {rows cols : ℕ} {C_arr : ℤ × ℤ → ℚ} {p q : ℤ × ℤ}
    (h : sameComp rows cols C_arr p q = true) : Conn rows cols C_arr p q := by
  simp only [sameComp, Bool.and_eq_true] at h
  exact connB_sound _ p q (condB_iff.mp h.1.1) (condB_iff.mp h.1.2) h.2

theorem conn_symm {rows cols : ℕ} {C_arr : ℤ × ℤ → ℚ} {p q : ℤ × ℤ}
    (h : Conn rows cols C_arr p q) : Conn rows cols C_arr q p := by
  refine Relation.ReflTransGen.symmetric ?_ h
  rintro a b ⟨ha, hb, hne, h1, h2, h3, h4⟩
  exact ⟨hb, ha, fun e => hne e.symm, by omega, by omega, by omega, by omega⟩

theorem mem_dirsF {d : ℤ × ℤ} : d ∈ dirsF ↔ d ∈ neighbors_coords := by
  simp [dirsF, neighbors_coords]

/-- Two 4-adjacent in-bounds cells with positive conductivity always pass the
component gate: they are 8-adjacent, hence directly connected in the mask. -/
theorem sameComp_of_adj (rows cols : ℕ) (C_arr : ℤ × ℤ → ℚ) (p d : ℤ × ℤ)
    (hd : d ∈ neighbors_coords) (hp : inB rows cols p)
    (hq : inB rows cols (p.1 + d.1, p.2 + d.2)) (hcp : 0 < C_arr p)
    (hcq : 0 < C_arr (p.1 + d.1, p.2 + d.2)) :
    sameComp rows cols C_arr p (p.1 + d.1, p.2 + d.2) = true := by
  have hcbp : condB rows cols C_arr p = true := condB_iff.mpr ⟨hp, hcp⟩
  have hcbq : condB rows cols C_arr (p.1 + d.1, p.2 + d.2) = true :=
    condB_iff.mpr ⟨hq, hcq⟩
  have hfuel : ∃ k, rows * cols = k + 1 := by
    obtain ⟨hp1, hp2, hp3, hp4⟩ := hp
    have hr : 0 < rows := by omega
    have hc : 0 < cols := by omega
    have hrc : 0 < rows * cols := Nat.mul_pos hr hc
    exact ⟨rows * cols - 1, by omega⟩
  obtain ⟨k, hk⟩ := hfuel
  have hmem : p ∈ neighbors8 (p.1 + d.1, p.2 + d.2) := by
    rw [neighbors8, List.mem_map]
    refine ⟨(-d.1, -d.2), ?_, ?_⟩
    · simp only [neighbors_coords, List.mem_cons, List.not_mem_nil, or_false] at hd
      rcases hd with rfl | rfl | rfl | rfl <;> simp [offsets8]
    · rw [Prod.mk.injEq]; constructor <;> ring
  rw [sameComp, hk, Bool.and_eq_true, Bool.and_eq_true]
  refine ⟨⟨hcbp, hcbq⟩, ?_⟩
  rw [connB, Bool.or_eq_true]
  right
  rw [List.any_eq_true]
  exact ⟨p, hmem, by rw [Bool.and_eq_true]; exact ⟨hcbp, connB_refl _ _ _⟩⟩

theorem flowTerm_eq_nogate (rows cols : ℕ) (C_arr M : ℤ × ℤ → ℚ) (dt : ℚ)
    (H1 : ℤ × ℤ → ℚ) (p d : ℤ × ℤ) (hd : d ∈ neighbors_coords) :
    flowTerm rows cols C_arr M dt H1 p d = flowTermNoGate rows cols C_arr M dt H1 p d := by
  unfold flowTerm flowTermNoGate
  by_cases h : inB rows cols p ∧ 0 < M p ∧ 0 < C_arr p ∧
      inB rows cols (p.1 + d.1, p.2 + d.2) ∧ 0 < M (p.1 + d.1, p.2 + d.2) ∧
      0 < C_arr (p.1 + d.1, p.2 + d.2)
  · obtain ⟨h1, h2, h3, h4, h5, h6⟩ := h
    rw [if_pos ⟨h1, h2, h3, h4, h5, h6,
        sameComp_of_adj rows cols C_arr p d hd h1 h4 h3 h6⟩,
      if_pos ⟨h1, h2, h3, h4, h5, h6⟩]
  · rw [if_neg (fun hc => h ⟨hc.1, hc.2.1, hc.2.2.1, hc.2.2.2.1, hc.2.2.2.2.1,
        hc.2.2.2.2.2.1⟩), if_neg h]

theorem dHOf_eq_nogate (rows cols : ℕ) (C_arr M : ℤ × ℤ → ℚ) (dt : ℚ)
    (H1 : ℤ × ℤ → ℚ) (z : ℤ × ℤ) :
    dHOf rows cols C_arr M dt H1 z = dHOfNoGate rows cols C_arr M dt H1 z := by
  unfold dHOf dHOfNoGate
  refine Finset.sum_congr rfl ?_
  rintro ⟨p, d⟩ hpd
  rw [Finset.mem_product] at hpd
  rw [flowTerm_eq_nogate rows cols C_arr M dt H1 p d (mem_dirsF.mp hpd.2)]

/-- The component gate of the pairwise-conduction phase is vacuous: the gated
and ungated updates agree on every input. -/
theorem update_heat_eq_nogate (rows cols : ℕ) (H G C_arr M : ℤ × ℤ → ℚ)
    (dt : ℚ) :
    update_heat_array rows cols H G C_arr M dt =
      update_heat_array_nogate rows cols H G C_arr M dt := by
  unfold update_heat_array preClamp update_heat_array_nogate
  have hdiff : diffPhase rows cols C_arr M dt (genPhase G dt H) =
      diffPhaseNoGate rows cols C_arr M dt (genPhase G dt H) := by
    funext z
    unfold diffPhase diffPhaseNoGate
    rw [dHOf_eq_nogate]
  rw [hdiff]

/-- The delta buffer redistributes heat: its total over the grid is zero. -/
theorem sum_dHOf_eq_zero (rows cols : ℕ) (C_arr M : ℤ × ℤ → ℚ) (dt : ℚ)
    (H1 : ℤ × ℤ → ℚ) :
    ∑ z ∈ cellsF rows cols, dHOf rows cols C_arr M dt H1 z = 0 := by
  unfold dHOf
  rw [Finset.sum_comm]
  apply Finset.sum_eq_zero
  rintro ⟨p, d⟩ hpd
  rw [Finset.mem_product] at hpd
  rw [← Finset.mul_sum, Finset.sum_sub_distrib, Finset.sum_ite_eq, Finset.sum_ite_eq]
  by_cases hf : flowTerm rows cols C_arr M dt H1 p d = 0
  · rw [hf, zero_mul]
  · have hq : inB rows cols (p.1 + d.1, p.2 + d.2) := by
      by_contra hq
      apply hf
      unfold flowTerm
      rw [if_neg (fun hc => hq hc.2.2.2.1)]
    rw [if_pos (mem_cellsF.mpr hq), if_pos hpd.1, sub_self, mul_zero]

theorem coolCells_eq_nil (rows cols : ℕ) (G M : ℤ × ℤ → ℚ)
    (h : ∀ p, inB rows cols p → ¬(G p < 0 ∧ M p = 0)) :
    coolCells rows cols G M = [] := by
  unfold coolCells
  rw [List.filter_eq_nil_iff]
  intro p hp
  simpa using h p (mem_cellsRM.mp hp)

theorem coolPhase_no_sink (rows cols : ℕ) (G M : ℤ × ℤ → ℚ) (dt : ℚ)
    (H2 : ℤ × ℤ → ℚ) (h : ∀ p, inB rows cols p → ¬(G p < 0 ∧ M p = 0)) :
    coolPhase rows cols G M dt H2 = H2 := by
  unfold coolPhase
  rw [coolCells_eq_nil rows cols G M h]
  rfl

/-- With zero generation on the grid there are no sink cells, and whenever
the pre-clip heats already lie inside `[0, capacity]`, one full step keeps
the total heat unchanged: the delta buffer sums to zero. -/
theorem sum_update_of_no_clamp (rows cols : ℕ) (H G C_arr M : ℤ × ℤ → ℚ)
    (dt : ℚ) (hG : ∀ p, inB rows cols p → G p = 0)
    (hcl : ∀ p, inB rows cols p →
      0 ≤ preClamp rows cols H G C_arr M dt p ∧
        preClamp rows cols H G C_arr M dt p ≤ M p) :
    ∑ p ∈ cellsF rows cols, update_heat_array rows cols H G C_arr M dt p =
      ∑ p ∈ cellsF rows cols, H p := by
  have hstep1 : ∑ p ∈ cellsF rows cols, update_heat_array rows cols H G C_arr M dt p =
      ∑ p ∈ cellsF rows cols, preClamp rows cols H G C_arr M dt p := by
    refine Finset.sum_congr rfl ?_
    intro p hp
    obtain ⟨h0, h1⟩ := hcl p (mem_cellsF.mp hp)
    unfold update_heat_array clampPhase
    rw [qmax_eq_max, max_eq_left h0, qmin_eq_min, min_eq_left h1]
  have hnosink : ∀ p, inB rows cols p → ¬(G p < 0 ∧ M p = 0) := by
    intro p hp hc
    rw [hG p hp] at hc
    exact lt_irrefl 0 hc.1
  have hstep2 : preClamp rows cols H G C_arr M dt =
      diffPhase rows cols C_arr M dt (genPhase G dt H) := by
    unfold preClamp
    exact coolPhase_no_sink rows cols G M dt _ hnosink
  rw [hstep1, hstep2]
  have hstep3 : ∑ p ∈ cellsF rows cols,
      diffPhase rows cols C_arr M dt (genPhase G dt H) p =
      ∑ p ∈ cellsF rows cols, genPhase G dt H p := by
    unfold diffPhase
    rw [Finset.sum_add_distrib, sum_dHOf_eq_zero, add_zero]
  rw [hstep3]
  refine Finset.sum_congr rfl ?_
  intro p hp
  unfold genPhase
  rw [hG p (mem_cellsF.mp hp), zero_mul, add_zero]

/-- If two heat states agree on every cell not connected to `x`, the delta
buffers they induce also agree there: every non-zero flow term passes the
component gate, so both of its endpoints are connected to each other. -/
theorem dHOf_agree (rows cols : ℕ) (C_arr M : ℤ × ℤ → ℚ) (dt : ℚ)
    (x z : ℤ × ℤ) (H1 H2 : ℤ × ℤ → ℚ)
    (hnc : ¬Conn rows cols C_arr x z)
    (hagree : ∀ w, ¬Conn rows cols C_arr x w → H1 w = H2 w) :
    dHOf rows cols C_arr M dt H1 z = dHOf rows cols C_arr M dt H2 z := by
  unfold dHOf
  refine Finset.sum_congr rfl ?_
  rintro ⟨p, d⟩ hpd
  by_cases hz : p = z ∨ (p.1 + d.1, p.2 + d.2) = z
  · have hflow : flowTerm rows cols C_arr M dt H1 p d =
        flowTerm rows cols C_arr M dt H2 p d := by
      unfold flowTerm
      by_cases hg : inB rows cols p ∧ 0 < M p ∧ 0 < C_arr p ∧
          inB rows cols (p.1 + d.1, p.2 + d.2) ∧ 0 < M (p.1 + d.1, p.2 + d.2) ∧
          0 < C_arr (p.1 + d.1, p.2 + d.2) ∧
          sameComp rows cols C_arr p (p.1 + d.1, p.2 + d.2) = true
      · have hpq : Conn rows cols C_arr p (p.1 + d.1, p.2 + d.2) :=
          sameComp_conn hg.2.2.2.2.2.2
        have hncp : ¬Conn rows cols C_arr x p := by
          rcases hz with rfl | he
          · exact hnc
          · intro h
            exact hnc (he ▸ h.trans hpq)
        have hncq : ¬Conn rows cols C_arr x (p.1 + d.1, p.2 + d.2) := by
          rcases hz with rfl | he
          · intro h
            exact hnc (h.trans (conn_symm hpq))
          · rw [he]; exact hnc
        have ht1 : tempOf M H1 p = tempOf M H2 p := by
          unfold tempOf
          rw [hagree p hncp]
        have ht2 : tempOf M H1 (p.1 + d.1, p.2 + d.2) =
            tempOf M H2 (p.1 + d.1, p.2 + d.2) := by
          unfold tempOf
          rw [hagree _ hncq]
        rw [if_pos hg, if_pos hg, ht1, ht2]
      · rw [if_neg hg, if_neg hg]
    rw [hflow]
  · push_neg at hz
    rw [if_neg hz.2, if_neg hz.1, sub_self, mul_zero, mul_zero]

/-- One full step of a sink-free field preserves agreement outside the
connected component of `x`. -/
theorem update_agree (rows cols : ℕ) (G C_arr M : ℤ × ℤ → ℚ) (dt : ℚ)
    (x : ℤ × ℤ) (H1 H2 : ℤ × ℤ → ℚ)
    (hnosink : ∀ p, inB rows cols p → ¬(G p < 0 ∧ M p = 0))
    (hagree : ∀ w, ¬Conn rows cols C_arr x w → H1 w = H2 w) :
    ∀ z, ¬Conn rows cols C_arr x z →
      update_heat_array rows cols H1 G C_arr M dt z =
        update_heat_array rows cols H2 G C_arr M dt z := by
  intro z hz
  unfold update_heat_array preClamp
  rw [coolPhase_no_sink rows cols G M dt _ hnosink,
    coolPhase_no_sink rows cols G M dt _ hnosink]
  have hgen : ∀ w, ¬Conn rows cols C_arr x w →
      genPhase G dt H1 w = genPhase G dt H2 w := by
    intro w hw
    unfold genPhase
    rw [hagree w hw]
  unfold clampPhase diffPhase
  rw [hgen z hz, dHOf_agree rows cols C_arr M dt x z _ _ hz hgen]

/-- Iterated steps of a sink-free field preserve agreement outside the
connected component of `x`. -/
theorem stepN_agree (rows cols : ℕ) (G C_arr M : ℤ × ℤ → ℚ) (dt : ℚ)
    (x : ℤ × ℤ) (H1 H2 : ℤ × ℤ → ℚ) (n : ℕ)
    (hnosink : ∀ p, inB rows cols p → ¬(G p < 0 ∧ M p = 0))
    (hagree : ∀ w, ¬Conn rows cols C_arr x w → H1 w = H2 w) :
    ∀ z, ¬Conn rows cols C_arr x z →
      stepN rows cols G C_arr M dt n H1 z = stepN rows cols G C_arr M dt n H2 z := by
  induction n with
  | zero => exact hagree
  | succ n ih =>
      intro z hz
      exact update_agree rows cols G C_arr M dt x _ _ hnosink ih z hz

/-- In the 1×3 isolation grid the origin has no outgoing conductive edge:
its only 8-neighbor inside the grid is the insulating middle cell. -/
theorem no_edge_iso (c : ℤ × ℤ) : ¬Edge 1 3 exC_iso (0, 0) c := by
  rintro ⟨⟨hin0, hc0⟩, ⟨⟨hb1, hb2, hb3, hb4⟩, hcc⟩, hne, h1, h2, h3, h4⟩
  obtain ⟨a, b⟩ := c
  simp only at hb1 hb2 hb3 hb4 h1 h2 h3 h4
  have ha : a = 0 := by omega
  have hb : b = 0 ∨ b = 1 := by omega
  subst ha
  rcases hb with rfl | rfl
  · exact hne rfl
  · rw [exC_iso] at hcc
    norm_num at hcc

/-- The two conductive end cells of the 1×3 isolation grid lie in different
connected components. -/
theorem notConn_iso : ¬Conn 1 3 exC_iso (0, 0) (0, 2) := by
  intro h
  rcases Relation.ReflTransGen.cases_head h with he | ⟨c, hedge, _⟩
  · exact absurd he (by decide)
  · exact no_edge_iso c hedge

/-! ### Claims -/

/-- Claim C1, counterexample: on the literal 2×1 scenario (cellA heat 10,
cellB heat 0, capacity 10, conductivity 1, dt 1) the post-step heats are not
the {9, 1} stated by the spec. -/
theorem claim_C1_counterexample :
    update_heat_array 2 1 exH_pair exG0 exC1 exM10 1 (0, 0) ≠ 9 ∧
    update_heat_array 2 1 exH_pair exG0 exC1 exM10 1 (1, 0) ≠ 1 := by
  constructor
  · rw [show update_heat_array 2 1 exH_pair exG0 exC1 exM10 1 (0, 0) = 8 from by
      with_unfolding_all rfl]
    norm_num
  · rw [show update_heat_array 2 1 exH_pair exG0 exC1 exM10 1 (1, 0) = 2 from by
      with_unfolding_all rfl]
    norm_num

/-- Claim C1 as amended: the loop computes
`flow = effectiveConductivity * (temp_self - temp_neighbor) * dt = 1` once
per *directed* pair, so the A→B and B→A iterations together transfer 2 units
and the post-step heats are {8, 2}. -/
theorem claim_C1_amended :
    flowTerm 2 1 exC1 exM10 1 (genPhase exG0 1 exH_pair) (0, 0) (1, 0) = 1 ∧
    update_heat_array 2 1 exH_pair exG0 exC1 exM10 1 (0, 0) = 8 ∧
    update_heat_array 2 1 exH_pair exG0 exC1 exM10 1 (1, 0) = 2 := by
  refine ⟨?_, ?_, ?_⟩ <;> with_unfolding_all rfl

/-- Claim C3: whenever every capacity is non-negative, each cell's heat lies
in `[0, capacity]` immediately after a step, because the final
`np.clip(H, 0, M)` forces it there. -/
theorem claim_C3 (rows cols : ℕ) (H G C_arr M : ℤ × ℤ → ℚ) (dt : ℚ)
    (hdt : 0 ≤ dt) (hM : ∀ q, 0 ≤ M q) (p : ℤ × ℤ) :
    0 ≤ update_heat_array rows cols H G C_arr M dt p ∧
      update_heat_array rows cols H G C_arr M dt p ≤ M p := by
  unfold update_heat_array clampPhase
  rw [qmax_eq_max, qmin_eq_min]
  exact ⟨le_min (le_max_right _ 0) (hM p), min_le_right _ _⟩

/-- Witness for C3 at the concrete 2×1 scenario. -/
theorem claim_C3_witness :
    0 ≤ update_heat_array 2 1 exH_pair exG0 exC1 exM10 1 (0, 0) ∧
      update_heat_array 2 1 exH_pair exG0 exC1 exM10 1 (0, 0) ≤ exM10 (0, 0) :=
  claim_C3 2 1 exH_pair exG0 exC1 exM10 1 (by norm_num)
    (fun q => by rw [exM10]; norm_num) (0, 0)

/-- Claim C6, counterexample: nothing rejects a negative `deltaTimeSeconds`;
`update_heat_array` runs the step at `dt = -1` and moves the state (reverse
diffusion), instead of failing. -/
theorem claim_C6_counterexample :
    update_heat_array 2 1 exH_rev exG0 exC1 exM10 (-1) (0, 0) ≠ exH_rev (0, 0) := by
  rw [show update_heat_array 2 1 exH_rev exG0 exC1 exM10 (-1) (0, 0) = 46/5 from by
    with_unfolding_all rfl]
  rw [show exH_rev (0, 0) = 8 from by with_unfolding_all rfl]
  norm_num

/-- Claim C6 as amended: the core performs no validation of the time delta;
a negative `dt` is accepted and the step runs with reversed flows, e.g. from
heats `(8, 2)` a call with `dt = -1` yields `(46/5, 4/5)`. -/
theorem claim_C6_amended :
    update_heat_array 2 1 exH_rev exG0 exC1 exM10 (-1) (0, 0) = 46/5 ∧
    update_heat_array 2 1 exH_rev exG0 exC1 exM10 (-1) (1, 0) = 4/5 := by
  constructor <;> with_unfolding_all rfl

/-- Claim C2, counterexample: with zero generation everywhere, one step on a
1×2 grid (capacity 1, conductivity 10, heats `(1, 1/2)`, dt 1) drops the
total heat from `3/2` to `1`: the final `np.clip` destroys the energy that
the overshooting flows pushed outside `[0, capacity]`. -/
theorem claim_C2_counterexample :
    (∑ p ∈ cellsF 1 2, exH_over p) = 3/2 ∧
    (∑ p ∈ cellsF 1 2, update_heat_array 1 2 exH_over exG0 exC10 exM1 1 p) = 1 ∧
    (∑ p ∈ cellsF 1 2, update_heat_array 1 2 exH_over exG0 exC10 exM1 1 p) ≠
      ∑ p ∈ cellsF 1 2, exH_over p := by
  refine ⟨by with_unfolding_all rfl, by with_unfolding_all rfl, ?_⟩
  rw [show (∑ p ∈ cellsF 1 2, update_heat_array 1 2 exH_over exG0 exC10 exM1 1 p) = 1 from by
    with_unfolding_all rfl]
  rw [show (∑ p ∈ cellsF 1 2, exH_over p) = 3/2 from by with_unfolding_all rfl]
  norm_num

/-- Claim C2 as amended: with zero generation on the grid, any number of
steps preserves the total heat exactly, provided that at each step the
pre-clip heats already lie inside `[0, capacity]` (so the final clip changes
nothing); without that proviso the clip can create or destroy energy. -/
theorem claim_C2_amended (rows cols : ℕ) (H G C_arr M : ℤ × ℤ → ℚ) (dt : ℚ)
    (n : ℕ) (hdt : 0 ≤ dt) (hG : ∀ p, inB rows cols p → G p = 0)
    (hcl : ∀ k, k < n → ∀ p, inB rows cols p →
      0 ≤ preClamp rows cols (stepN rows cols G C_arr M dt k H) G C_arr M dt p ∧
        preClamp rows cols (stepN rows cols G C_arr M dt k H) G C_arr M dt p ≤ M p) :
    ∑ p ∈ cellsF rows cols, stepN rows cols G C_arr M dt n H p =
      ∑ p ∈ cellsF rows cols, H p := by
  induction n with
  | zero => rfl
  | succ n ih =>
      have h1 := sum_update_of_no_clamp rows cols (stepN rows cols G C_arr M dt n H)
        G C_arr M dt hG (hcl n (Nat.lt_succ_self n))
      calc ∑ p ∈ cellsF rows cols, stepN rows cols G C_arr M dt (n + 1) H p
          = ∑ p ∈ cellsF rows cols,
              update_heat_array rows cols (stepN rows cols G C_arr M dt n H) G C_arr M dt p := rfl
        _ = ∑ p ∈ cellsF rows cols, stepN rows cols G C_arr M dt n H p := h1
        _ = ∑ p ∈ cellsF rows cols, H p :=
            ih (fun k hk p hp => hcl k (Nat.lt_succ_of_lt hk) p hp)

/-- Witness for the amended C2 on the 2×1 scenario: one step sends heats
`(10, 0)` to `(8, 2)` without clipping, and the total stays 10. -/
theorem claim_C2_amended_witness :
    (∑ p ∈ cellsF 2 1, stepN 2 1 exG0 exC1 exM10 1 1 exH_pair p) =
      ∑ p ∈ cellsF 2 1, exH_pair p := by
  refine claim_C2_amended 2 1 exH_pair exG0 exC1 exM10 1 1 (by norm_num)
    (fun p _ => by rw [exG0]) ?_
  intro k hk p hp
  have hk0 : k = 0 := by omega
  subst hk0
  obtain ⟨a, b⟩ := p
  obtain ⟨h1, h2, h3, h4⟩ := hp
  have hab : (a = 0 ∨ a = 1) ∧ b = 0 := by
    constructor <;> omega
  obtain ⟨ha, rfl⟩ := hab
  rcases ha with rfl | rfl
  · rw [show preClamp 2 1 (stepN 2 1 exG0 exC1 exM10 1 0 exH_pair) exG0 exC1 exM10 1 (0, 0) = 8 from by
      with_unfolding_all rfl]
    rw [exM10]
    norm_num
  · rw [show preClamp 2 1 (stepN 2 1 exG0 exC1 exM10 1 0 exH_pair) exG0 exC1 exM10 1 (1, 0) = 2 from by
      with_unfolding_all rfl]
    rw [exM10]
    norm_num

/-- Claim C4: in the INCOME handler's per-cell checks, expiration is
evaluated first and short-circuits overheat (the `continue`); when the cell
is not removed by expiration, it is removed by overheat exactly when
`heat >= max_heat` and `heat_generation > 0`; an object with
`heat_generation <= 0` is never removed by overheat. -/
theorem claim_C4 (c : Content) (hVal now : ℚ)
    (hperm : c.permanent = decide (c.timeout = 0)) :
    (0 < c.timeout → (now - c.creation) / 1000 ≥ (c.timeout : ℚ) →
      incomeTickCell c hVal now = TickOutcome.removedExpired) ∧
    (¬(c.permanent = false ∧ (now - c.creation) / 1000 ≥ (c.timeout : ℚ)) →
      (incomeTickCell c hVal now = TickOutcome.removedOverheat ↔
        hVal ≥ c.max_heat ∧ c.heat_generation > 0)) ∧
    (c.heat_generation ≤ 0 →
      incomeTickCell c hVal now ≠ TickOutcome.removedOverheat) := by
  refine ⟨?_, ?_, ?_⟩
  · intro ht he
    have hp : c.permanent = false := by
      rw [hperm, decide_eq_false_iff_not]
      omega
    unfold incomeTickCell
    rw [if_pos ⟨hp, he⟩]
  · intro hno
    unfold incomeTickCell
    rw [if_neg hno]
    by_cases h2 : hVal ≥ c.max_heat ∧ c.heat_generation > 0
    · rw [if_pos h2]
      exact iff_of_true rfl h2
    · rw [if_neg h2]
      constructor
      · intro hcon
        exact absurd hcon (by simp)
      · intro h
        exact absurd h h2
  · intro hg
    unfold incomeTickCell
    split_ifs with h1 h2
    · simp
    · exact absurd h2.2 (not_lt.mpr hg)
    · simp

/-- Witness for C4: the 15-second entry expires at `now = 15000` ms, and a
heat-sink-like entry (`heat_generation = -1`) at full heat is not removed by
overheat. -/
theorem claim_C4_witness :
    incomeTickCell exContent 0 15000 = TickOutcome.removedExpired ∧
    incomeTickCell exContentPerm 5 0 ≠ TickOutcome.removedOverheat := by
  constructor
  · exact (claim_C4 exContent 0 15000 rfl).1 (by norm_num [exContent, mkContent])
      (by norm_num [exContent, mkContent])
  · exact (claim_C4 exContentPerm 5 0 rfl).2.2 (by norm_num [exContentPerm, mkContent])

/-- Claim C5: a pure heat-sink cell (`capacity = 0`, `generation < 0`) whose
coolable neighbors carry positive total heat removes
`coolingPower = -generation * dt` from them in proportion to each neighbor's
heat share, flooring each at 0 and leaving all other cells unchanged; on the
literal 1×2 scenario (sink −2 next to a single neighbor of capacity 10 and
heat 5) the full step leaves the neighbor at heat 3. -/
theorem claim_C5 :
    (∀ (rows cols : ℕ) (G M : ℤ × ℤ → ℚ) (dt : ℚ) (H2 : ℤ × ℤ → ℚ) (s : ℤ × ℤ),
      G s < 0 → M s = 0 →
      0 < ((coolNbrs rows cols M s).map H2).sum →
      (∀ n ∈ coolNbrs rows cols M s,
        applyCoolAt rows cols G M dt H2 s n =
          qmax 0 (H2 n - (-G s * dt) * (H2 n / ((coolNbrs rows cols M s).map H2).sum))) ∧
      (∀ p, p ∉ coolNbrs rows cols M s → applyCoolAt rows cols G M dt H2 s p = H2 p)) ∧
    update_heat_array 1 2 exH_sink exG_sink exC0 exM_sink 1 (0, 1) = 3 := by
  constructor
  · intro rows cols G M dt H2 s hG hM htot
    have hne : (coolNbrs rows cols M s).isEmpty = false := by
      rcases h : coolNbrs rows cols M s with _ | ⟨a, l⟩
      · rw [h] at htot
        norm_num at htot
      · rfl
    constructor
    · intro n hn
      unfold applyCoolAt
      rw [hne]
      simp only [Bool.false_eq_true, if_false]
      rw [if_pos htot, if_pos hn]
    · intro p hp
      unfold applyCoolAt
      rw [hne]
      simp only [Bool.false_eq_true, if_false]
      rw [if_pos htot, if_neg hp]
  · with_unfolding_all rfl

/-- Witness for C5: the sole coolable neighbor of the scenario's sink ends
at its proportional-cooling value. -/
theorem claim_C5_witness :
    applyCoolAt 1 2 exG_sink exM_sink 1 exH_sink (0, 0) (0, 1) =
      qmax 0 (exH_sink (0, 1) -
        (-exG_sink (0, 0) * 1) *
          (exH_sink (0, 1) / ((coolNbrs 1 2 exM_sink (0, 0)).map exH_sink).sum)) := by
  refine (claim_C5.1 1 2 exG_sink exM_sink 1 exH_sink (0, 0) ?_ ?_ ?_).1 (0, 1) ?_
  · rw [show exG_sink (0, 0) = -2 from rfl]
    norm_num
  · rfl
  · rw [show ((coolNbrs 1 2 exM_sink (0, 0)).map exH_sink).sum = 5 from by
      with_unfolding_all rfl]
    norm_num
  · rw [show coolNbrs 1 2 exM_sink (0, 0) = [(0, 1)] from by with_unfolding_all rfl]
    exact List.mem_singleton.mpr rfl

/-- Claim C7: placing into an occupied cell returns `False` and leaves the
occupancy state and all four arrays untouched. -/
theorem claim_C7 (s : SimState) (p : ℤ × ℤ) (c : Content) (now : ℚ)
    (h : s.occupied p = true) : boxPlace s p c now = (s, false) := by
  unfold boxPlace
  rw [if_neg]
  rw [h]
  norm_num

/-- Witness for C7 at the concrete occupied state. -/
theorem claim_C7_witness : boxPlace exState (0, 0) exContentPerm 99 = (exState, false) :=
  claim_C7 exState (0, 0) exContentPerm 99 rfl

/-- Claim C8, counterexample: `Box.remove` on an occupied cell does not
return the removed object: the Python method returns `None` on every path. -/
theorem claim_C8_counterexample :
    (exState.content (0, 0)).isSome = true ∧ (boxRemove exState (0, 0)).2 = none :=
  ⟨rfl, rfl⟩

/-- Claim C8 as amended: on an occupied cell `remove` zeroes the four arrays
at the coordinate, clears occupancy and content, and returns `None`; on an
empty unoccupied cell it is a no-op that also returns `None`. -/
theorem claim_C8_amended (s : SimState) (p : ℤ × ℤ) :
    ((s.content p).isSome = true →
      (boxRemove s p).1.H p = 0 ∧ (boxRemove s p).1.G p = 0 ∧
      (boxRemove s p).1.M p = 0 ∧ (boxRemove s p).1.C_arr p = 0 ∧
      (boxRemove s p).1.occupied p = false ∧ (boxRemove s p).1.content p = none ∧
      (boxRemove s p).2 = none) ∧
    (s.content p = none → s.occupied p = false → boxRemove s p = (s, none)) := by
  constructor
  · intro h
    unfold boxRemove
    rw [if_pos h]
    simp
  · intro hc ho
    have h1 : (s.content p).isSome = false := by rw [hc]; rfl
    unfold boxRemove
    rw [h1]
    simp only [Bool.false_eq_true, if_false]
    have hocc : (fun q => if q = p then false else s.occupied q) = s.occupied := by
      funext q
      by_cases hq : q = p
      · subst hq
        rw [if_pos rfl, ho]
      · rw [if_neg hq]
    have hcont : (fun q => if q = p then none else s.content q) = s.content := by
      funext q
      by_cases hq : q = p
      · subst hq
        rw [if_pos rfl, hc]
      · rw [if_neg hq]
    rw [hocc, hcont]

/-- Witness for the amended C8: occupied cell gets cleared, empty state is
untouched. -/
theorem claim_C8_amended_witness :
    ((boxRemove exState (0, 0)).1.H (0, 0) = 0 ∧
      (boxRemove exState (0, 0)).1.G (0, 0) = 0 ∧
      (boxRemove exState (0, 0)).1.M (0, 0) = 0 ∧
      (boxRemove exState (0, 0)).1.C_arr (0, 0) = 0 ∧
      (boxRemove exState (0, 0)).1.occupied (0, 0) = false ∧
      (boxRemove exState (0, 0)).1.content (0, 0) = none ∧
      (boxRemove exState (0, 0)).2 = none) ∧
    boxRemove exStateEmpty (1, 1) = (exStateEmpty, none) :=
  ⟨(claim_C8_amended exState (0, 0)).1 rfl,
    (claim_C8_amended exStateEmpty (1, 1)).2 rfl rfl⟩

/-- Claim C9, counterexample: the cooling phase ignores components.  In the
1×3 grid whose conductive end cells are separated by an insulating sink
column, raising the heat of `(0,0)` changes the post-step heat of `(0,2)`
(the sink splits its power in proportion to both neighbors' heats), so the
two isolated cells do interfere. -/
theorem claim_C9_counterexample :
    0 < exC_iso (0, 0) ∧ 0 < exC_iso (0, 2) ∧
    ¬Conn 1 3 exC_iso (0, 0) (0, 2) ∧
    update_heat_array 1 3 exH_isoA exG_iso exC_iso exM_iso 1 (0, 2) ≠
      update_heat_array 1 3 exH_isoB exG_iso exC_iso exM_iso 1 (0, 2) := by
  refine ⟨by rw [show exC_iso (0, 0) = 1 from rfl]; norm_num,
    by rw [show exC_iso (0, 2) = 1 from rfl]; norm_num, notConn_iso, ?_⟩
  rw [show update_heat_array 1 3 exH_isoA exG_iso exC_iso exM_iso 1 (0, 2) = 4 from by
    with_unfolding_all rfl]
  rw [show update_heat_array 1 3 exH_isoB exG_iso exC_iso exM_iso 1 (0, 2) = 13/3 from by
    with_unfolding_all rfl]
  norm_num

/-- Claim C9 as amended: in a field with no heat-sink cells (no cell with
`generation < 0` and `capacity = 0`), two conductive cells in different
8-connected components never exchange heat: runs differing only in one
cell's initial heat agree at the other cell after any number of steps. -/
theorem claim_C9_amended (rows cols : ℕ) (H1 H2 G C_arr M : ℤ × ℤ → ℚ)
    (dt : ℚ) (x y : ℤ × ℤ) (n : ℕ)
    (hnosink : ∀ p, inB rows cols p → ¬(G p < 0 ∧ M p = 0))
    (hx : CondCell rows cols C_arr x) (hy : CondCell rows cols C_arr y)
    (hsep : ¬Conn rows cols C_arr x y)
    (hdiff : ∀ z, z ≠ x → H1 z = H2 z) :
    stepN rows cols G C_arr M dt n H1 y = stepN rows cols G C_arr M dt n H2 y := by
  have hagree : ∀ w, ¬Conn rows cols C_arr x w → H1 w = H2 w := by
    intro w hw
    refine hdiff w ?_
    rintro rfl
    exact hw Relation.ReflTransGen.refl
  exact stepN_agree rows cols G C_arr M dt x H1 H2 n hnosink hagree y hsep

/-- Witness for the amended C9: the sink-free variant of the isolation grid
keeps the isolated cell's heat independent of the other end's heat. -/
theorem claim_C9_amended_witness :
    stepN 1 3 exG0 exC_iso exM_iso 1 1 exH_isoA (0, 2) =
      stepN 1 3 exG0 exC_iso exM_iso 1 1 exH_isoB (0, 2) := by
  refine claim_C9_amended 1 3 exH_isoA exH_isoB exG0 exC_iso exM_iso 1
    (0, 0) (0, 2) 1 ?_ ?_ ?_ notConn_iso ?_
  · intro p hp hc
    rw [show exG0 p = 0 from rfl] at hc
    exact lt_irrefl 0 hc.1
  · exact ⟨by decide, by rw [show exC_iso (0, 0) = 1 from rfl]; norm_num⟩
  · exact ⟨by decide, by rw [show exC_iso (0, 2) = 1 from rfl]; norm_num⟩
  · intro z hz
    rw [exH_isoB]
    rw [if_neg hz]

/-- Claim C10: the component gate of the conduction loop is vacuous: two
4-adjacent in-bounds cells that both pass the capacity and conductivity
guards always carry the same non-zero component label (they are 8-adjacent
conductive cells), and the whole step equals the identical step with the
component-equality check removed. -/
theorem claim_C10 :
    (∀ (rows cols : ℕ) (C_arr M : ℤ × ℤ → ℚ) (p d : ℤ × ℤ),
      d ∈ neighbors_coords → inB rows cols p →
      inB rows cols (p.1 + d.1, p.2 + d.2) →
      0 < M p → 0 < M (p.1 + d.1, p.2 + d.2) →
      0 < C_arr p → 0 < C_arr (p.1 + d.1, p.2 + d.2) →
      sameComp rows cols C_arr p (p.1 + d.1, p.2 + d.2) = true) ∧
    (∀ (rows cols : ℕ) (H G C_arr M : ℤ × ℤ → ℚ) (dt : ℚ),
      update_heat_array rows cols H G C_arr M dt =
        update_heat_array_nogate rows cols H G C_arr M dt) := by
  constructor
  · intro rows cols C_arr M p d hd hp hq hMp hMq hcp hcq
    exact sameComp_of_adj rows cols C_arr p d hd hp hq hcp hcq
  · intro rows cols H G C_arr M dt
    exact update_heat_eq_nogate rows cols H G C_arr M dt

/-- Witness for C10: the gate holds at the concrete adjacent pair, and the
gated and ungated steps agree on the concrete scenario. -/
theorem claim_C10_witness :
    sameComp 2 1 exC1 (0, 0) ((0 : ℤ) + 1, (0 : ℤ) + 0) = true ∧
    update_heat_array 2 1 exH_pair exG0 exC1 exM10 1 =
      update_heat_array_nogate 2 1 exH_pair exG0 exC1 exM10 1 :=
  ⟨claim_C10.1 2 1 exC1 exM10 (0, 0) (1, 0) (by decide) (by decide) (by decide)
      (by rw [show exM10 (0, 0) = 10 from rfl]; norm_num)
      (by rw [show exM10 ((0 : ℤ) + 1, (0 : ℤ) + 0) = 10 from rfl]; norm_num)
      (by rw [show exC1 (0, 0) = 1 from rfl]; norm_num)
      (by rw [show exC1 ((0 : ℤ) + 1, (0 : ℤ) + 0) = 1 from rfl]; norm_num),
    claim_C10.2 2 1 exH_pair exG0 exC1 exM10 1⟩

end IdleGame
